import Mathlib

/-!
Verification of the diagram-editing core of `src/src/App.js` (ebwebeditor).

The mutable React state of the `Canvas` / `EBWebEditor` components is
embedded as an explicit `EditorState`; each event handler becomes a pure
state-transformer translated line by line from the source:

* `paletteDrop`  — the `data.source === "palette"` branch of `onDrop`
  (App.js lines 108-120);
* `canvasDrop`   — the `data.source === "canvas"` branch of `onDrop`
  (App.js lines 121-139);
* `armStart`     — `onStartHandleClick` (lines 142-146);
* `clickTarget`  — `onActivityClickAsTarget` (lines 148-161);
* `mouseMove` / `mouseLeave` — the `onMouseMove` / `onMouseLeave` props of
  the surface `section` (lines 172-179).

JavaScript's `Array.prototype.findIndex` is embedded as `findIdxP`
(returning `Option Nat` instead of `-1`), positional assignment
`draft[i] = v` as `List.set`, `draft.splice(i, 1)` as `List.eraseIdx`,
and `Array.prototype.filter` as `List.filter`.  Node ids are allocated
from the `nextIdRef` counter, which starts at 1.
-/

namespace EBWeb

/-- A placed activity: `{ id, type, col, row }` objects of the `items`
state array in App.js. -/
structure Item where
  id : Nat
  type : String
  col : Nat
  row : Nat
deriving DecidableEq, Repr

/-- A directed connection: `{ fromId, toId }` objects of the
`connections` state array in App.js. -/
structure Conn where
  fromId : Nat
  toId : Nat
deriving DecidableEq, Repr

/-- The whole mutable state of the editor: the `items` and `connections`
arrays of `EBWebEditor`, the `nextIdRef` counter and the
`pendingSourceId` / `previewPoint` state of `Canvas`. -/
structure EditorState where
  items : List Item
  connections : List Conn
  nextId : Nat
  pendingSourceId : Option Nat
  previewPoint : Option (Int × Int)
deriving DecidableEq, Repr

/-- JavaScript truthiness of the `pendingSourceId` value: `null` and `0`
are falsy (ids are allocated from 1, so `0` never occurs in the UI, but
the guard `if (!pendingSourceId)` tests exactly this). -/
def truthy : Option Nat → Bool
  | none => false
  | some n => n != 0

/-- `Array.prototype.findIndex`, with `none` for `-1`. -/
def findIdxP (p : α → Bool) : List α → Option Nat
  | [] => none
  | a :: l => if p a then some 0 else (findIdxP p l).map (· + 1)

/-- Positional update `l[i] = f l[i]`; out-of-range indices leave the
list unchanged (they never occur in the embedded code). -/
def modifyIdx (l : List α) (i : Nat) (f : α → α) : List α :=
  match l[i]? with
  | some a => l.set i (f a)
  | none => l

/-- The predicate of `findIndex((it) => it.col === cell.col && it.row === cell.row)`. -/
def cellMatch (col row : Nat) (it : Item) : Bool :=
  it.col == col && it.row == row

/-- The predicate of `findIndex((it) => it.id === data.id)`. -/
def idMatch (i : Nat) (it : Item) : Bool :=
  it.id == i

/-- `{ ...it, col, row }`. -/
def setCoords (col row : Nat) (it : Item) : Item :=
  { it with col := col, row := row }

/-- The `data.source === "palette"` branch of `onDrop` (App.js 108-120):
look up the first occupant of the target cell; build the new item with
the next fresh id; if an occupant exists, drop its incident connections
and overwrite its slot, otherwise append the new item.  The counter
`nextIdRef.current++` advances in both cases. -/
def paletteDrop (s : EditorState) (ty : String) (col row : Nat) : EditorState :=
  let newItem : Item := { id := s.nextId, type := ty, col := col, row := row }
  match findIdxP (cellMatch col row) s.items with
  | some existingIdx =>
    match s.items[existingIdx]? with
    | some existing =>
      { s with
        items := s.items.set existingIdx newItem,
        connections := s.connections.filter
          (fun c => c.fromId != existing.id && c.toId != existing.id),
        nextId := s.nextId + 1 }
    | none => s  -- unreachable: findIndex always returns an in-range index
  | none =>
    { s with
      items := s.items ++ [newItem],
      nextId := s.nextId + 1 }

/-- The `data.source === "canvas"` branch of `onDrop` (App.js 121-139):
find the moving item by id (no-op when absent); find the occupant of the
target cell; when a distinct occupant exists, splice it out, update the
moving item at the splice-adjusted index and drop the occupant's
incident connections; otherwise just update the moving item's
coordinates. -/
def canvasDrop (s : EditorState) (movingId : Nat) (col row : Nat) : EditorState :=
  match findIdxP (idMatch movingId) s.items with
  | none => s
  | some movingIdx =>
    match findIdxP (cellMatch col row) s.items with
    | some existingIdx =>
      match s.items[existingIdx]? with
      | some existing =>
        if existing.id != movingId then
          { s with
            items :=
              modifyIdx (s.items.eraseIdx existingIdx)
                (if movingIdx > existingIdx then movingIdx - 1 else movingIdx)
                (setCoords col row),
            connections := s.connections.filter
              (fun c => c.fromId != existing.id && c.toId != existing.id) }
        else
          { s with items := modifyIdx s.items movingIdx (setCoords col row) }
      | none =>  -- unreachable: findIndex always returns an in-range index
        { s with items := modifyIdx s.items movingIdx (setCoords col row) }
    | none =>
      { s with items := modifyIdx s.items movingIdx (setCoords col row) }

/-- `onStartHandleClick` (App.js 142-146): unconditionally arm the
clicked id and clear the preview point.  The source performs no
existence check on `id`. -/
def armStart (s : EditorState) (id : Nat) : EditorState :=
  { s with pendingSourceId := some id, previewPoint := none }

/-- `onActivityClickAsTarget` (App.js 148-161): no-op unless
`pendingSourceId` is truthy; clicking the armed source cancels; clicking
any other id replaces the pending source's outgoing connections with
`{fromId: pendingSourceId, toId: id}` and disarms.  The source performs
no existence check on either endpoint. -/
def clickTarget (s : EditorState) (id : Nat) : EditorState :=
  match s.pendingSourceId with
  | none => s
  | some src =>
    if src = 0 then s  -- `if (!pendingSourceId) return;` — 0 is falsy
    else if id = src then
      { s with pendingSourceId := none, previewPoint := none }
    else
      { s with
        connections :=
          s.connections.filter (fun c => c.fromId != src) ++ [⟨src, id⟩],
        pendingSourceId := none, previewPoint := none }

/-- `SURFACE_PX` (App.js line 5). -/
def SURFACE_PX : Int := 2000

/-- The surface's `onMouseMove` handler (App.js 172-178): no-op while
not armed; otherwise store the pointer position clamped into
`[0, SURFACE_PX]` on each axis. -/
def mouseMove (s : EditorState) (x y : Int) : EditorState :=
  match s.pendingSourceId with
  | none => s
  | some src =>
    if src = 0 then s  -- `if (!pendingSourceId ...) return;`
    else
      let px := max 0 (min SURFACE_PX x)
      let py := max 0 (min SURFACE_PX y)
      { s with previewPoint := some (px, py) }

/-- The surface's `onMouseLeave` handler (App.js 179): clear the preview
point when armed. -/
def mouseLeave (s : EditorState) : EditorState :=
  match s.pendingSourceId with
  | none => s
  | some src =>
    if src = 0 then s  -- `if (pendingSourceId)` guard
    else { s with previewPoint := none }

/-- The decoded input events of the editor: palette drops, canvas drops,
handle clicks (arm), pointer moves and leaves, and target clicks. -/
inductive Event where
  | palette (ty : String) (col row : Nat)
  | canvas (movingId col row : Nat)
  | arm (id : Nat)
  | move (x y : Int)
  | leave
  | click (id : Nat)
deriving DecidableEq, Repr

/-- Dispatch one event to its handler. -/
def step (s : EditorState) : Event → EditorState
  | .palette ty c r => paletteDrop s ty c r
  | .canvas m c r => canvasDrop s m c r
  | .arm i => armStart s i
  | .move x y => mouseMove s x y
  | .leave => mouseLeave s
  | .click i => clickTarget s i

/-- Run a sequence of events. -/
def run (s : EditorState) : List Event → EditorState
  | [] => s
  | e :: es => run (step s e) es

/-- The initial state: empty `items` and `connections`, `nextIdRef`
starting at 1, not armed, no preview. -/
def init : EditorState :=
  { items := [], connections := [], nextId := 1,
    pendingSourceId := none, previewPoint := none }

/-- A state is reachable when some event sequence from `init` produces it. -/
def Reachable (s : EditorState) : Prop :=
  ∃ es, run init es = s

/-! ## Recursive views of the positional array operations

`onDrop` manipulates the `items` array through `findIndex`, positional
assignment and `splice`.  The following structurally recursive functions
give an index-free view of those manipulations; the `..._findIdxP`
lemmas below prove the two presentations equal, so all further reasoning
can proceed by structural induction. -/

/-- The first element satisfying `p` (what `draft[draft.findIndex(p)]` reads). -/
def findFirst (p : α → Bool) : List α → Option α
  | [] => none
  | a :: l => if p a then some a else findFirst p l

/-- Remove the first element satisfying `p` (the effect of
`draft.splice(draft.findIndex(p), 1)`). -/
def removeFirst (p : α → Bool) : List α → List α
  | [] => []
  | a :: l => if p a then l else a :: removeFirst p l

/-- Apply `f` to the first element satisfying `p` (the effect of
`draft[draft.findIndex(p)] = f(...)`). -/
def updateFirst (p : α → Bool) (f : α → α) : List α → List α
  | [] => []
  | a :: l => if p a then f a :: l else a :: updateFirst p f l

theorem findIdxP_cons_pos {p : α → Bool} {a : α} (l : List α) (hp : p a = true) :
    findIdxP p (a :: l) = some 0 := by
  simp [findIdxP, hp]

theorem findIdxP_cons_neg {p : α → Bool} {a : α} (l : List α) (hp : p a = false) :
    findIdxP p (a :: l) = (findIdxP p l).map (· + 1) := by
  simp [findIdxP, hp]

theorem findIdxP_eq_none {p : α → Bool} {l : List α} :
    findIdxP p l = none ↔ ∀ a ∈ l, p a = false := by
  induction l with
  | nil => simp [findIdxP]
  | cons a l ih =>
    by_cases h : p a
    · rw [findIdxP_cons_pos l h]
      simp [h]
    · rw [findIdxP_cons_neg l (by simpa using h)]
      simp [h, Option.map_eq_none', ih]

theorem findFirst_eq_none {p : α → Bool} {l : List α} :
    findFirst p l = none ↔ ∀ a ∈ l, p a = false := by
  induction l with
  | nil => simp [findFirst]
  | cons a l ih =>
    by_cases h : p a <;> simp [findFirst, h, ih]

theorem findIdxP_some_pos {p : α → Bool} {a : α} {l : List α} {i : Nat}
    (hp : p a = true) (h : findIdxP p (a :: l) = some i) : i = 0 := by
  rw [findIdxP_cons_pos l hp] at h
  exact (Option.some.injEq _ _ ▸ h).symm

theorem findIdxP_some_neg {p : α → Bool} {a : α} {l : List α} {i : Nat}
    (hp : p a = false) (h : findIdxP p (a :: l) = some i) :
    ∃ j, findIdxP p l = some j ∧ i = j + 1 := by
  rw [findIdxP_cons_neg l hp] at h
  cases hfi : findIdxP p l with
  | none => rw [hfi] at h; simp at h
  | some j =>
    rw [hfi] at h
    simp only [Option.map_some', Option.some.injEq] at h
    exact ⟨j, rfl, h.symm⟩

theorem findFirst_isSome_of_findIdxP {p : α → Bool} :
    ∀ {l : List α} {i : Nat}, findIdxP p l = some i →
      ∃ a, findFirst p l = some a := by
  intro l
  induction l with
  | nil => intro i h; simp [findIdxP] at h
  | cons a l ih =>
    intro i h
    by_cases hp : p a
    · exact ⟨a, by simp [findFirst, hp]⟩
    · have hp' : p a = false := by simpa using hp
      obtain ⟨j, hj, -⟩ := findIdxP_some_neg hp' h
      obtain ⟨b, hb⟩ := ih hj
      exact ⟨b, by simp [findFirst, hp, hb]⟩

theorem findFirst_some_mem {p : α → Bool} :
    ∀ {l : List α} {a : α}, findFirst p l = some a → a ∈ l ∧ p a = true := by
  intro l
  induction l with
  | nil => intro a h; simp [findFirst] at h
  | cons b l ih =>
    intro a h
    by_cases hp : p b
    · rw [show findFirst p (b :: l) = some b by simp [findFirst, hp]] at h
      cases h; exact ⟨List.mem_cons_self _ _, hp⟩
    · rw [show findFirst p (b :: l) = findFirst p l by simp [findFirst, hp]] at h
      exact ⟨List.mem_cons_of_mem _ (ih h).1, (ih h).2⟩

theorem findFirst_isSome_of_mem {p : α → Bool} {l : List α} {a : α}
    (ha : a ∈ l) (hp : p a = true) : ∃ b, findFirst p l = some b := by
  cases hf : findFirst p l with
  | some b => exact ⟨b, rfl⟩
  | none => exact absurd hp (by simp [findFirst_eq_none.mp hf a ha])

theorem findIdxP_get {p : α → Bool} :
    ∀ {l : List α} {i : Nat}, findIdxP p l = some i →
      l[i]? = findFirst p l := by
  intro l
  induction l with
  | nil => intro i h; simp [findIdxP] at h
  | cons a l ih =>
    intro i h
    by_cases hp : p a
    · rw [findIdxP_some_pos hp h]
      simp [findFirst, hp]
    · have hp' : p a = false := by simpa using hp
      obtain ⟨j, hj, hji⟩ := findIdxP_some_neg hp' h
      subst hji
      simp [findFirst, hp, ih hj]

theorem set_findIdxP {p : α → Bool} (x : α) :
    ∀ {l : List α} {i : Nat}, findIdxP p l = some i →
      l.set i x = updateFirst p (fun _ => x) l := by
  intro l
  induction l with
  | nil => intro i h; simp [findIdxP] at h
  | cons a l ih =>
    intro i h
    by_cases hp : p a
    · rw [findIdxP_some_pos hp h]
      simp [updateFirst, hp]
    · have hp' : p a = false := by simpa using hp
      obtain ⟨j, hj, hji⟩ := findIdxP_some_neg hp' h
      subst hji
      simp [updateFirst, hp, ih hj]

theorem eraseIdx_findIdxP {p : α → Bool} :
    ∀ {l : List α} {i : Nat}, findIdxP p l = some i →
      l.eraseIdx i = removeFirst p l := by
  intro l
  induction l with
  | nil => intro i h; simp [findIdxP] at h
  | cons a l ih =>
    intro i h
    by_cases hp : p a
    · rw [findIdxP_some_pos hp h]
      simp [removeFirst, hp]
    · have hp' : p a = false := by simpa using hp
      obtain ⟨j, hj, hji⟩ := findIdxP_some_neg hp' h
      subst hji
      simp [removeFirst, hp, List.eraseIdx, ih hj]

theorem modifyIdx_cons_zero (a : α) (l : List α) (f : α → α) :
    modifyIdx (a :: l) 0 f = f a :: l := by
  simp [modifyIdx]

theorem modifyIdx_cons_succ (a : α) (l : List α) (j : Nat) (f : α → α) :
    modifyIdx (a :: l) (j + 1) f = a :: modifyIdx l j f := by
  unfold modifyIdx
  cases h : l[j]? with
  | none => simp [h]
  | some b => simp [h]

theorem modifyIdx_findIdxP {p : α → Bool} (f : α → α) :
    ∀ {l : List α} {i : Nat}, findIdxP p l = some i →
      modifyIdx l i f = updateFirst p f l := by
  intro l
  induction l with
  | nil => intro i h; simp [findIdxP] at h
  | cons a l ih =>
    intro i h
    by_cases hp : p a
    · rw [findIdxP_some_pos hp h]
      simp [modifyIdx_cons_zero, updateFirst, hp]
    · have hp' : p a = false := by simpa using hp
      obtain ⟨j, hj, hji⟩ := findIdxP_some_neg hp' h
      subst hji
      simp [modifyIdx_cons_succ, updateFirst, hp, ih hj]

/-- Correctness of the splice-index adjustment in the `canvas` branch of
`onDrop`: removing the occupant at `existingIdx` and then updating the
element at the adjusted `movingIdx` is the same as removing the first
`p`-match and updating the first `q`-match, provided the occupant is not
itself a `q`-match (which is exactly the `draft[existingIdx].id !==
data.id` guard). -/
theorem modifyIdx_eraseIdx_adjust {q p : α → Bool} (f : α → α) :
    ∀ {l : List α} {mi ei : Nat},
      findIdxP q l = some mi → findIdxP p l = some ei →
      (∀ x, l[ei]? = some x → q x = false) →
      modifyIdx (l.eraseIdx ei) (if mi > ei then mi - 1 else mi) f
        = updateFirst q f (removeFirst p l) := by
  intro l
  induction l with
  | nil => intro mi ei hq _ _; simp [findIdxP] at hq
  | cons a t ih =>
    intro mi ei hq hp hne
    by_cases hpa : p a
    · have hei : ei = 0 := findIdxP_some_pos hpa hp
      subst hei
      have hqa : q a = false := hne a (by simp)
      obtain ⟨mj, hmj, hmi⟩ := findIdxP_some_neg hqa hq
      subst hmi
      rw [if_pos (Nat.succ_pos mj)]
      simp only [Nat.add_sub_cancel]
      show modifyIdx t mj f = updateFirst q f (removeFirst p (a :: t))
      rw [modifyIdx_findIdxP f hmj]
      simp [removeFirst, hpa]
    · have hpa' : p a = false := by simpa using hpa
      obtain ⟨ej, hej, hei⟩ := findIdxP_some_neg hpa' hp
      subst hei
      by_cases hqa : q a
      · have hmi : mi = 0 := findIdxP_some_pos hqa hq
        subst hmi
        rw [if_neg (by omega)]
        show modifyIdx (a :: t.eraseIdx ej) 0 f
          = updateFirst q f (removeFirst p (a :: t))
        rw [modifyIdx_cons_zero, eraseIdx_findIdxP hej]
        simp [removeFirst, updateFirst, hpa', hqa]
      · have hqa' : q a = false := by simpa using hqa
        obtain ⟨mj, hmj, hmi⟩ := findIdxP_some_neg hqa' hq
        subst hmi
        show modifyIdx (a :: t.eraseIdx ej)
            (if mj + 1 > ej + 1 then mj + 1 - 1 else mj + 1) f
          = updateFirst q f (removeFirst p (a :: t))
        have hidx : (if mj + 1 > ej + 1 then mj + 1 - 1 else mj + 1)
            = (if mj > ej then mj - 1 else mj) + 1 := by
          by_cases hc : mj > ej
          · rw [if_pos (by omega), if_pos hc]; omega
          · rw [if_neg (by omega), if_neg hc]
        rw [hidx, modifyIdx_cons_succ,
          ih hmj hej (fun x hx => hne x (by simpa using hx))]
        simp [removeFirst, updateFirst, hpa', hqa']

/-- A `findFirst` hit decomposes the list around the first match; the
positional update and removal act exactly there. -/
theorem findFirst_decomp {p : α → Bool} :
    ∀ {l : List α} {a : α}, findFirst p l = some a →
      ∃ l₁ l₂, l = l₁ ++ a :: l₂ ∧ (∀ b ∈ l₁, p b = false) ∧
        removeFirst p l = l₁ ++ l₂ ∧
        ∀ f : α → α, updateFirst p f l = l₁ ++ f a :: l₂ := by
  intro l
  induction l with
  | nil => intro a h; simp [findFirst] at h
  | cons b t ih =>
    intro a h
    by_cases hp : p b
    · rw [show findFirst p (b :: t) = some b by simp [findFirst, hp]] at h
      cases h
      exact ⟨[], t, rfl, by simp, by simp [removeFirst, hp],
        fun f => by simp [updateFirst, hp]⟩
    · rw [show findFirst p (b :: t) = findFirst p t by simp [findFirst, hp]] at h
      obtain ⟨l₁, l₂, hl, hnot, hrem, hupd⟩ := ih h
      refine ⟨b :: l₁, l₂, by simp [hl], ?_, ?_, ?_⟩
      · intro c hc
        rcases List.mem_cons.mp hc with rfl | hc
        · simpa using hp
        · exact hnot c hc
      · simp [removeFirst, hp, hrem]
      · intro f; simp [updateFirst, hp, hupd f]

theorem mem_updateFirst {p : α → Bool} {f : α → α} :
    ∀ {l : List α} {a : α}, a ∈ updateFirst p f l →
      a ∈ l ∨ ∃ b, b ∈ l ∧ p b = true ∧ a = f b := by
  intro l
  induction l with
  | nil => intro a h; simp [updateFirst] at h
  | cons b t ih =>
    intro a h
    by_cases hp : p b
    · rw [show updateFirst p f (b :: t) = f b :: t by simp [updateFirst, hp]] at h
      rcases List.mem_cons.mp h with h | h
      · exact Or.inr ⟨b, List.mem_cons_self _ _, hp, h⟩
      · exact Or.inl (List.mem_cons_of_mem _ h)
    · rw [show updateFirst p f (b :: t) = b :: updateFirst p f t by
          simp [updateFirst, hp]] at h
      rcases List.mem_cons.mp h with h | h
      · exact Or.inl (h ▸ List.mem_cons_self _ _)
      · rcases ih h with h | ⟨c, hc, hpc, hac⟩
        · exact Or.inl (List.mem_cons_of_mem _ h)
        · exact Or.inr ⟨c, List.mem_cons_of_mem _ hc, hpc, hac⟩

theorem updateFirst_map {p : α → Bool} {f : α → α} (g : α → β)
    (hf : ∀ a, p a = true → g (f a) = g a) :
    ∀ l : List α, (updateFirst p f l).map g = l.map g := by
  intro l
  induction l with
  | nil => simp [updateFirst]
  | cons b t ih =>
    by_cases hp : p b
    · simp [updateFirst, hp, hf b hp]
    · simp [updateFirst, hp, ih]

theorem updateFirst_eq_self {p : α → Bool} {f : α → α} :
    ∀ {l : List α} {a : α}, findFirst p l = some a → f a = a →
      updateFirst p f l = l := by
  intro l
  induction l with
  | nil => intro a h _; simp [findFirst] at h
  | cons b t ih =>
    intro a h hfa
    by_cases hp : p b
    · rw [show findFirst p (b :: t) = some b by simp [findFirst, hp]] at h
      cases h
      simp [updateFirst, hp, hfa]
    · rw [show findFirst p (b :: t) = findFirst p t by simp [findFirst, hp]] at h
      simp [updateFirst, hp, ih h hfa]

theorem mem_updateFirst_of_ne {p : α → Bool} {f : α → α} :
    ∀ {l : List α} {a b : α}, findFirst p l = some b → a ∈ l → a ≠ b →
      a ∈ updateFirst p f l := by
  intro l
  induction l with
  | nil => intro a b h _ _; simp [findFirst] at h
  | cons c t ih =>
    intro a b h ha hne
    by_cases hp : p c
    · rw [show findFirst p (c :: t) = some c by simp [findFirst, hp]] at h
      cases h
      rw [show updateFirst p f (c :: t) = f c :: t by simp [updateFirst, hp]]
      rcases List.mem_cons.mp ha with rfl | ha
      · exact absurd rfl hne
      · exact List.mem_cons_of_mem _ ha
    · rw [show findFirst p (c :: t) = findFirst p t by simp [findFirst, hp]] at h
      rw [show updateFirst p f (c :: t) = c :: updateFirst p f t by
          simp [updateFirst, hp]]
      rcases List.mem_cons.mp ha with rfl | ha
      · exact List.mem_cons_self _ _
      · exact List.mem_cons_of_mem _ (ih h ha hne)

theorem mem_removeFirst_of_ne {p : α → Bool} :
    ∀ {l : List α} {a b : α}, findFirst p l = some b → a ∈ l → a ≠ b →
      a ∈ removeFirst p l := by
  intro l
  induction l with
  | nil => intro a b h _ _; simp [findFirst] at h
  | cons c t ih =>
    intro a b h ha hne
    by_cases hp : p c
    · rw [show findFirst p (c :: t) = some c by simp [findFirst, hp]] at h
      cases h
      rw [show removeFirst p (c :: t) = t by simp [removeFirst, hp]]
      rcases List.mem_cons.mp ha with rfl | ha
      · exact absurd rfl hne
      · exact ha
    · rw [show findFirst p (c :: t) = findFirst p t by simp [findFirst, hp]] at h
      rw [show removeFirst p (c :: t) = c :: removeFirst p t by
          simp [removeFirst, hp]]
      rcases List.mem_cons.mp ha with rfl | ha
      · exact List.mem_cons_self _ _
      · exact List.mem_cons_of_mem _ (ih h ha hne)

theorem removeFirst_sublist (p : α → Bool) :
    ∀ l : List α, List.Sublist (removeFirst p l) l := by
  intro l
  induction l with
  | nil => simp [removeFirst]
  | cons b t ih =>
    by_cases hp : p b
    · rw [show removeFirst p (b :: t) = t by simp [removeFirst, hp]]
      exact List.sublist_cons_self b t
    · rw [show removeFirst p (b :: t) = b :: removeFirst p t by
          simp [removeFirst, hp]]
      exact List.Sublist.cons₂ b ih

theorem mem_removeFirst {p : α → Bool} {l : List α} {a : α}
    (h : a ∈ removeFirst p l) : a ∈ l :=
  (removeFirst_sublist p l).mem h

/-- When at most one element can satisfy `p` (here: `Pairwise R` holds
and two `p`-matches can never be `R`-related), nothing matching `p`
survives `removeFirst p`. -/
theorem removeFirst_forall_not {R : α → α → Prop} {p : α → Bool}
    (hx : ∀ a b, p a = true → p b = true → R a b → False) :
    ∀ {l : List α}, l.Pairwise R → ∀ b ∈ removeFirst p l, p b = false := by
  intro l
  induction l with
  | nil => intro _ b hb; simp [removeFirst] at hb
  | cons c t ih =>
    intro hl b hb
    obtain ⟨hc, ht⟩ := List.pairwise_cons.mp hl
    by_cases hp : p c
    · rw [show removeFirst p (c :: t) = t by simp [removeFirst, hp]] at hb
      by_cases hpb : p b
      · exact absurd (hx c b hp hpb (hc b hb)) not_false
      · simpa using hpb
    · rw [show removeFirst p (c :: t) = c :: removeFirst p t by
          simp [removeFirst, hp]] at hb
      rcases List.mem_cons.mp hb with rfl | hb
      · simpa using hp
      · exact ih ht b hb

/-- `Pairwise` survives updating the first `p`-match as long as the
update keeps the relation to every other member in both directions. -/
theorem pairwise_updateFirst {R : α → α → Prop} {p : α → Bool} {f : α → α} :
    ∀ {l : List α}, l.Pairwise R →
      (∀ a b, a ∈ l → b ∈ l → p a = true → R a b → R (f a) b) →
      (∀ a b, a ∈ l → b ∈ l → p b = true → R a b → R a (f b)) →
      (updateFirst p f l).Pairwise R := by
  intro l
  induction l with
  | nil => intro _ _ _; simp [updateFirst]
  | cons c t ih =>
    intro hl h₁ h₂
    obtain ⟨hc, ht⟩ := List.pairwise_cons.mp hl
    by_cases hp : p c
    · rw [show updateFirst p f (c :: t) = f c :: t by simp [updateFirst, hp]]
      refine List.pairwise_cons.mpr ⟨?_, ht⟩
      intro b hb
      exact h₁ c b (List.mem_cons_self _ _) (List.mem_cons_of_mem _ hb) hp (hc b hb)
    · rw [show updateFirst p f (c :: t) = c :: updateFirst p f t by
          simp [updateFirst, hp]]
      refine List.pairwise_cons.mpr ⟨?_, ?_⟩
      · intro b hb
        rcases mem_updateFirst hb with hb | ⟨d, hd, hpd, hbd⟩
        · exact hc b hb
        · exact hbd ▸ h₂ c d (List.mem_cons_self _ _)
            (List.mem_cons_of_mem _ hd) hpd (hc d hd)
      · exact ih ht
          (fun a b ha hb hpa hr =>
            h₁ a b (List.mem_cons_of_mem _ ha) (List.mem_cons_of_mem _ hb) hpa hr)
          (fun a b ha hb hpb hr =>
            h₂ a b (List.mem_cons_of_mem _ ha) (List.mem_cons_of_mem _ hb) hpb hr)

theorem cellMatch_iff {col row : Nat} {it : Item} :
    cellMatch col row it = true ↔ it.col = col ∧ it.row = row := by
  simp [cellMatch]

theorem idMatch_iff {i : Nat} {it : Item} :
    idMatch i it = true ↔ it.id = i := by
  simp [idMatch]

/-- Index-free characterisation of the palette branch of `onDrop`. -/
theorem paletteDrop_char (s : EditorState) (ty : String) (col row : Nat) :
    paletteDrop s ty col row =
      match findFirst (cellMatch col row) s.items with
      | some existing =>
        { s with
          items := updateFirst (cellMatch col row)
            (fun _ => { id := s.nextId, type := ty, col := col, row := row })
            s.items,
          connections := s.connections.filter
            (fun c => c.fromId != existing.id && c.toId != existing.id),
          nextId := s.nextId + 1 }
      | none =>
        { s with
          items := s.items ++ [{ id := s.nextId, type := ty, col := col, row := row }],
          nextId := s.nextId + 1 } := by
  cases hfi : findIdxP (cellMatch col row) s.items with
  | none =>
    have hff : findFirst (cellMatch col row) s.items = none :=
      findFirst_eq_none.mpr (findIdxP_eq_none.mp hfi)
    simp [paletteDrop, hfi, hff]
  | some i =>
    obtain ⟨ex, hex⟩ := findFirst_isSome_of_findIdxP hfi
    have hget : s.items[i]? = some ex := (findIdxP_get hfi).trans hex
    simp only [paletteDrop, hfi, hget, hex]
    rw [set_findIdxP _ hfi]

/-- Index-free characterisation of the canvas branch of `onDrop`:
splicing out the occupant and updating at the adjusted index is exactly
removing the first occupant and updating the first id-match. -/
theorem canvasDrop_char (s : EditorState) (m col row : Nat) :
    canvasDrop s m col row =
      match findIdxP (idMatch m) s.items with
      | none => s
      | some _ =>
        match findFirst (cellMatch col row) s.items with
        | some existing =>
          if existing.id != m then
            { s with
              items := updateFirst (idMatch m) (setCoords col row)
                (removeFirst (cellMatch col row) s.items),
              connections := s.connections.filter
                (fun c => c.fromId != existing.id && c.toId != existing.id) }
          else
            { s with items := updateFirst (idMatch m) (setCoords col row) s.items }
        | none =>
          { s with items := updateFirst (idMatch m) (setCoords col row) s.items } := by
  cases hmi : findIdxP (idMatch m) s.items with
  | none => simp [canvasDrop, hmi]
  | some mi =>
    cases hei : findIdxP (cellMatch col row) s.items with
    | none =>
      have hff : findFirst (cellMatch col row) s.items = none :=
        findFirst_eq_none.mpr (findIdxP_eq_none.mp hei)
      simp only [canvasDrop, hmi, hei, hff]
      rw [modifyIdx_findIdxP _ hmi]
    | some ei =>
      obtain ⟨ex, hex⟩ := findFirst_isSome_of_findIdxP hei
      have hget : s.items[ei]? = some ex := (findIdxP_get hei).trans hex
      simp only [canvasDrop, hmi, hei, hget, hex]
      by_cases hne : (ex.id != m) = true
      · rw [if_pos hne, if_pos hne]
        have hqx : ∀ x, s.items[ei]? = some x → idMatch m x = false := by
          intro x hx
          rw [hget] at hx
          cases hx
          simp only [idMatch]
          simpa using hne
        rw [modifyIdx_eraseIdx_adjust _ hmi hei hqx]
      · rw [if_neg hne, if_neg hne]
        rw [modifyIdx_findIdxP _ hmi]

/-! ## Store invariants -/

/-- The grid cell a node occupies. -/
def Item.cell (it : Item) : Nat × Nat := (it.col, it.row)

/-- Every stored id is below the allocation counter (so the next id is fresh). -/
abbrev IdsBounded (s : EditorState) : Prop :=
  ∀ it ∈ s.items, it.id < s.nextId

/-- No two entries of the node store carry the same id. -/
abbrev DistinctIds (l : List Item) : Prop :=
  l.Pairwise (fun a b => a.id ≠ b.id)

/-- No two entries of the node store occupy the same grid cell. -/
abbrev DistinctCells (l : List Item) : Prop :=
  l.Pairwise (fun a b => a.cell ≠ b.cell)

/-- The inductive invariant of the node store. -/
abbrev StoreInv (s : EditorState) : Prop :=
  IdsBounded s ∧ DistinctIds s.items ∧ DistinctCells s.items

theorem cellMatch_cell {col row : Nat} {it : Item} :
    cellMatch col row it = true ↔ it.cell = (col, row) := by
  simp [cellMatch, Item.cell, Prod.ext_iff]

theorem cell_ne_of_cellMatch_false {col row : Nat} {it : Item}
    (h : cellMatch col row it = false) : it.cell ≠ (col, row) := by
  intro hc
  rw [cellMatch_cell.mpr hc] at h
  exact Bool.noConfusion h

/-- If the first `idMatch m` element exists and some member `ex` has id
`m`, then under `DistinctIds` the first match is `ex`; when `ex` already
sits at the target cell, the coordinate update is the identity. -/
theorem updateFirst_setCoords_self {l : List Item} {m : Nat} {ex : Item}
    {col row : Nat} (hids : DistinctIds l)
    (hu : ∃ u, findFirst (idMatch m) l = some u)
    (hexmem : ex ∈ l) (hexid : ex.id = m)
    (hexc : ex.col = col) (hexr : ex.row = row) :
    updateFirst (idMatch m) (setCoords col row) l = l := by
  obtain ⟨u, hu⟩ := hu
  obtain ⟨humem, hup⟩ := findFirst_some_mem hu
  have huid : u.id = m := idMatch_iff.mp hup
  have huex : u = ex := by
    by_contra hne
    exact List.Pairwise.forall (fun {a b} h => Ne.symm h) hids humem hexmem hne
      (huid.trans hexid.symm)
  subst huex
  refine updateFirst_eq_self hu ?_
  obtain ⟨uid, uty, uc, ur⟩ := u
  simp only [setCoords]
  simp_all

theorem storeInv_paletteDrop {s : EditorState} (h : StoreInv s)
    (ty : String) (col row : Nat) : StoreInv (paletteDrop s ty col row) := by
  obtain ⟨hb, hids, hcells⟩ := h
  rw [paletteDrop_char]
  cases hff : findFirst (cellMatch col row) s.items with
  | none =>
    have hnone : ∀ a ∈ s.items, cellMatch col row a = false :=
      findFirst_eq_none.mp hff
    refine ⟨?_, ?_, ?_⟩
    · intro it hit
      rcases List.mem_append.mp hit with hit | hit
      · exact Nat.lt_succ_of_lt (hb it hit)
      · obtain rfl := List.mem_singleton.mp hit
        exact Nat.lt_succ_self _
    · refine List.pairwise_append.mpr ⟨hids, by simp, ?_⟩
      intro a ha b hbmem
      obtain rfl := List.mem_singleton.mp hbmem
      exact Nat.ne_of_lt (hb a ha)
    · refine List.pairwise_append.mpr ⟨hcells, by simp, ?_⟩
      intro a ha b hbmem
      obtain rfl := List.mem_singleton.mp hbmem
      exact cell_ne_of_cellMatch_false (hnone a ha)
  | some ex =>
    refine ⟨?_, ?_, ?_⟩
    · intro it hit
      rcases mem_updateFirst hit with hit | ⟨b, _, _, rfl⟩
      · exact Nat.lt_succ_of_lt (hb it hit)
      · exact Nat.lt_succ_self _
    · refine pairwise_updateFirst hids ?_ ?_
      · intro a b _ hbmem _ _
        exact (Nat.ne_of_lt (hb b hbmem)).symm
      · intro a b hamem _ _ _
        exact Nat.ne_of_lt (hb a hamem)
    · refine pairwise_updateFirst hcells ?_ ?_
      · intro a b _ _ hpa hr
        have ha : a.cell = (col, row) := cellMatch_cell.mp hpa
        show (Item.cell ⟨s.nextId, ty, col, row⟩) ≠ b.cell
        rw [show Item.cell ⟨s.nextId, ty, col, row⟩ = (col, row) from rfl, ← ha]
        exact hr
      · intro a b _ _ hpb hr
        have hbc : b.cell = (col, row) := cellMatch_cell.mp hpb
        show a.cell ≠ Item.cell ⟨s.nextId, ty, col, row⟩
        rw [show Item.cell ⟨s.nextId, ty, col, row⟩ = (col, row) from rfl, ← hbc]
        exact hr

theorem storeInv_canvasDrop {s : EditorState} (h : StoreInv s)
    (m col row : Nat) : StoreInv (canvasDrop s m col row) := by
  obtain ⟨hb, hids, hcells⟩ := h
  rw [canvasDrop_char]
  cases hmi : findIdxP (idMatch m) s.items with
  | none => exact ⟨hb, hids, hcells⟩
  | some mi =>
    have hsetinv : ∀ l : List Item,
        (∀ it ∈ l, it.id < s.nextId) → DistinctIds l → DistinctCells l →
        (∀ b ∈ l, cellMatch col row b = false) →
        (∀ it ∈ updateFirst (idMatch m) (setCoords col row) l, it.id < s.nextId) ∧
          DistinctIds (updateFirst (idMatch m) (setCoords col row) l) ∧
          DistinctCells (updateFirst (idMatch m) (setCoords col row) l) := by
      intro l hbl hidsl hcellsl hfree
      refine ⟨?_, ?_, ?_⟩
      · intro it hit
        rcases mem_updateFirst hit with hit | ⟨b, hbmem, _, rfl⟩
        · exact hbl it hit
        · exact hbl b hbmem
      · refine pairwise_updateFirst hidsl ?_ ?_
        · intro a b _ _ _ hr
          exact hr
        · intro a b _ _ _ hr
          exact hr
      · refine pairwise_updateFirst hcellsl ?_ ?_
        · intro a b _ hbmem _ _
          show (setCoords col row a).cell ≠ b.cell
          rw [show (setCoords col row a).cell = (col, row) from rfl]
          exact fun hc => cell_ne_of_cellMatch_false (hfree b hbmem) hc.symm
        · intro a b hamem _ _ _
          show a.cell ≠ (setCoords col row b).cell
          rw [show (setCoords col row b).cell = (col, row) from rfl]
          exact cell_ne_of_cellMatch_false (hfree a hamem)
    cases hff : findFirst (cellMatch col row) s.items with
    | none =>
      exact hsetinv s.items hb hids hcells (findFirst_eq_none.mp hff)
    | some ex =>
      by_cases hne : (ex.id != m) = true
      · dsimp only
        rw [if_pos hne]
        have hsub := removeFirst_sublist (cellMatch col row) s.items
        have hexcl : ∀ a b : Item, cellMatch col row a = true →
            cellMatch col row b = true → a.cell ≠ b.cell → False := by
          intro a b hpa hpb hab
          exact hab ((cellMatch_cell.mp hpa).trans (cellMatch_cell.mp hpb).symm)
        exact hsetinv _ (fun it hit => hb it (hsub.mem hit))
          (hids.sublist hsub) (hcells.sublist hsub)
          (removeFirst_forall_not hexcl hcells)
      · dsimp only
        rw [if_neg hne]
        have hexid : ex.id = m := by simpa using hne
        obtain ⟨hexmem, hexp⟩ := findFirst_some_mem hff
        have hexcell := cellMatch_cell.mp hexp
        have hitems : updateFirst (idMatch m) (setCoords col row) s.items
            = s.items := by
          refine updateFirst_setCoords_self hids
            (findFirst_isSome_of_findIdxP hmi) hexmem hexid ?_ ?_
          · exact congrArg Prod.fst hexcell
          · exact congrArg Prod.snd hexcell
        rw [hitems]
        exact ⟨hb, hids, hcells⟩

/-! ## Which handler touches which field -/

theorem paletteDrop_pending (s : EditorState) (ty : String) (col row : Nat) :
    (paletteDrop s ty col row).pendingSourceId = s.pendingSourceId := by
  rw [paletteDrop_char]
  cases findFirst (cellMatch col row) s.items <;> rfl

theorem paletteDrop_preview (s : EditorState) (ty : String) (col row : Nat) :
    (paletteDrop s ty col row).previewPoint = s.previewPoint := by
  rw [paletteDrop_char]
  cases findFirst (cellMatch col row) s.items <;> rfl

theorem canvasDrop_pending (s : EditorState) (m col row : Nat) :
    (canvasDrop s m col row).pendingSourceId = s.pendingSourceId := by
  rw [canvasDrop_char]
  cases findIdxP (idMatch m) s.items with
  | none => rfl
  | some mi =>
    cases findFirst (cellMatch col row) s.items with
    | none => rfl
    | some ex =>
      dsimp only
      split <;> rfl

theorem canvasDrop_preview (s : EditorState) (m col row : Nat) :
    (canvasDrop s m col row).previewPoint = s.previewPoint := by
  rw [canvasDrop_char]
  cases findIdxP (idMatch m) s.items with
  | none => rfl
  | some mi =>
    cases findFirst (cellMatch col row) s.items with
    | none => rfl
    | some ex =>
      dsimp only
      split <;> rfl

theorem clickTarget_items (s : EditorState) (i : Nat) :
    (clickTarget s i).items = s.items := by
  cases hps : s.pendingSourceId with
  | none => simp [clickTarget, hps]
  | some src =>
    by_cases h0 : src = 0
    · simp [clickTarget, hps, h0]
    · by_cases hi : i = src <;> simp [clickTarget, hps, h0, hi]

theorem clickTarget_nextId (s : EditorState) (i : Nat) :
    (clickTarget s i).nextId = s.nextId := by
  cases hps : s.pendingSourceId with
  | none => simp [clickTarget, hps]
  | some src =>
    by_cases h0 : src = 0
    · simp [clickTarget, hps, h0]
    · by_cases hi : i = src <;> simp [clickTarget, hps, h0, hi]

theorem mouseMove_eq (s : EditorState) (x y : Int) :
    mouseMove s x y = s ∨
      mouseMove s x y = { s with previewPoint := some (max 0 (min SURFACE_PX x), max 0 (min SURFACE_PX y)) } := by
  cases hps : s.pendingSourceId with
  | none => exact Or.inl (by simp [mouseMove, hps])
  | some src =>
    by_cases h0 : src = 0
    · exact Or.inl (by simp [mouseMove, hps, h0])
    · exact Or.inr (by simp [mouseMove, hps, h0])

theorem mouseLeave_eq (s : EditorState) :
    mouseLeave s = s ∨ mouseLeave s = { s with previewPoint := none } := by
  cases hps : s.pendingSourceId with
  | none => exact Or.inl (by simp [mouseLeave, hps])
  | some src =>
    by_cases h0 : src = 0
    · exact Or.inl (by simp [mouseLeave, hps, h0])
    · exact Or.inr (by simp [mouseLeave, hps, h0])

theorem mouseMove_items (s : EditorState) (x y : Int) :
    (mouseMove s x y).items = s.items := by
  rcases mouseMove_eq s x y with h | h <;> rw [h]

theorem mouseMove_connections (s : EditorState) (x y : Int) :
    (mouseMove s x y).connections = s.connections := by
  rcases mouseMove_eq s x y with h | h <;> rw [h]

theorem mouseMove_nextId (s : EditorState) (x y : Int) :
    (mouseMove s x y).nextId = s.nextId := by
  rcases mouseMove_eq s x y with h | h <;> rw [h]

theorem mouseLeave_items (s : EditorState) :
    (mouseLeave s).items = s.items := by
  rcases mouseLeave_eq s with h | h <;> rw [h]

theorem mouseLeave_connections (s : EditorState) :
    (mouseLeave s).connections = s.connections := by
  rcases mouseLeave_eq s with h | h <;> rw [h]

theorem mouseLeave_nextId (s : EditorState) :
    (mouseLeave s).nextId = s.nextId := by
  rcases mouseLeave_eq s with h | h <;> rw [h]

/-- The store invariant only concerns `items` and `nextId`. -/
theorem storeInv_of_fields {s t : EditorState} (h : StoreInv s)
    (hi : t.items = s.items) (hn : t.nextId = s.nextId) : StoreInv t := by
  obtain ⟨hb, hids, hcells⟩ := h
  refine ⟨?_, ?_, ?_⟩
  · intro it hit
    rw [hn]
    exact hb it (hi ▸ hit)
  · rw [hi]; exact hids
  · rw [hi]; exact hcells

theorem storeInv_step {s : EditorState} (h : StoreInv s) (e : Event) :
    StoreInv (step s e) := by
  cases e with
  | palette ty c r => exact storeInv_paletteDrop h ty c r
  | canvas m c r => exact storeInv_canvasDrop h m c r
  | arm i => exact storeInv_of_fields h rfl rfl
  | move x y => exact storeInv_of_fields h (mouseMove_items s x y) (mouseMove_nextId s x y)
  | leave => exact storeInv_of_fields h (mouseLeave_items s) (mouseLeave_nextId s)
  | click i => exact storeInv_of_fields h (clickTarget_items s i) (clickTarget_nextId s i)

theorem storeInv_run :
    ∀ (es : List Event) {s : EditorState}, StoreInv s → StoreInv (run s es)
  | [], _, h => h
  | e :: es, _, h => storeInv_run es (storeInv_step h e)

theorem storeInv_init : StoreInv init := by
  refine ⟨?_, ?_, ?_⟩
  · intro it hit; cases hit
  · exact List.Pairwise.nil
  · exact List.Pairwise.nil

theorem storeInv_reachable {s : EditorState} (h : Reachable s) : StoreInv s := by
  obtain ⟨es, rfl⟩ := h
  exact storeInv_run es storeInv_init

/-! ## Case lemmas for the handlers -/

theorem paletteDrop_connections_none {s : EditorState} {ty : String} {col row : Nat}
    (hff : findFirst (cellMatch col row) s.items = none) :
    (paletteDrop s ty col row).connections = s.connections := by
  rw [paletteDrop_char, hff]

theorem paletteDrop_items_none {s : EditorState} {ty : String} {col row : Nat}
    (hff : findFirst (cellMatch col row) s.items = none) :
    (paletteDrop s ty col row).items
      = s.items ++ [{ id := s.nextId, type := ty, col := col, row := row }] := by
  rw [paletteDrop_char, hff]

theorem paletteDrop_connections_some {s : EditorState} {ty : String} {col row : Nat}
    {ex : Item} (hff : findFirst (cellMatch col row) s.items = some ex) :
    (paletteDrop s ty col row).connections
      = s.connections.filter (fun c => c.fromId != ex.id && c.toId != ex.id) := by
  rw [paletteDrop_char, hff]

theorem paletteDrop_items_some {s : EditorState} {ty : String} {col row : Nat}
    {ex : Item} (hff : findFirst (cellMatch col row) s.items = some ex) :
    (paletteDrop s ty col row).items
      = updateFirst (cellMatch col row)
          (fun _ => { id := s.nextId, type := ty, col := col, row := row }) s.items := by
  rw [paletteDrop_char, hff]

theorem canvasDrop_eq_of_absent {s : EditorState} {m col row : Nat}
    (h : findIdxP (idMatch m) s.items = none) :
    canvasDrop s m col row = s := by
  rw [canvasDrop_char, h]

theorem canvasDrop_evict {s : EditorState} {m col row mi : Nat} {ex : Item}
    (hmi : findIdxP (idMatch m) s.items = some mi)
    (hff : findFirst (cellMatch col row) s.items = some ex)
    (hne : (ex.id != m) = true) :
    canvasDrop s m col row
      = { s with
          items := updateFirst (idMatch m) (setCoords col row)
            (removeFirst (cellMatch col row) s.items),
          connections := s.connections.filter
            (fun c => c.fromId != ex.id && c.toId != ex.id) } := by
  rw [canvasDrop_char, hmi, hff]
  dsimp only
  rw [if_pos hne]

theorem canvasDrop_move_free {s : EditorState} {m col row mi : Nat}
    (hmi : findIdxP (idMatch m) s.items = some mi)
    (hff : findFirst (cellMatch col row) s.items = none) :
    canvasDrop s m col row
      = { s with items := updateFirst (idMatch m) (setCoords col row) s.items } := by
  rw [canvasDrop_char, hmi, hff]

theorem canvasDrop_move_self {s : EditorState} {m col row mi : Nat} {ex : Item}
    (hmi : findIdxP (idMatch m) s.items = some mi)
    (hff : findFirst (cellMatch col row) s.items = some ex)
    (hne : (ex.id != m) = false) :
    canvasDrop s m col row
      = { s with items := updateFirst (idMatch m) (setCoords col row) s.items } := by
  rw [canvasDrop_char, hmi, hff]
  dsimp only
  rw [if_neg (by simp [hne])]

theorem clickTarget_eq_of_idle {s : EditorState} {i : Nat}
    (hps : s.pendingSourceId = none) : clickTarget s i = s := by
  simp [clickTarget, hps]

theorem clickTarget_eq_of_zero {s : EditorState} {i : Nat}
    (hps : s.pendingSourceId = some 0) : clickTarget s i = s := by
  simp [clickTarget, hps]

theorem clickTarget_cancel {s : EditorState} {i src : Nat}
    (hps : s.pendingSourceId = some src) (h0 : src ≠ 0) (hi : i = src) :
    clickTarget s i = { s with pendingSourceId := none, previewPoint := none } := by
  simp [clickTarget, hps, h0, hi]

/-- The commit step of `onActivityClickAsTarget`: while armed with a
(nonzero) source `src` and clicking `i ≠ src`, the connection store
drops every edge out of `src` and gains `{fromId:src, toId:i}`, and the
controller disarms.  No existence check of either endpoint occurs. -/
theorem clickTarget_commit {s : EditorState} {i src : Nat}
    (hps : s.pendingSourceId = some src) (h0 : src ≠ 0) (hi : i ≠ src) :
    clickTarget s i = { s with connections := s.connections.filter (fun c => c.fromId != src) ++ [⟨src, i⟩], pendingSourceId := none, previewPoint := none } := by
  simp [clickTarget, hps, h0, hi]

/-! ## Edge validity -/

/-- Some stored node carries id `i`. -/
abbrev hasId (l : List Item) (i : Nat) : Prop := ∃ it ∈ l, it.id = i

/-- Both endpoints of every stored edge reference stored nodes. -/
abbrev EdgeValid (s : EditorState) : Prop :=
  ∀ c ∈ s.connections, hasId s.items c.fromId ∧ hasId s.items c.toId

/-- The armed source (when any) references a stored node. -/
abbrev ArmedOk (s : EditorState) : Prop :=
  ∀ src, s.pendingSourceId = some src → hasId s.items src

/-- The guards of the spec's connection state machine: arm-start and
target clicks reference existing nodes, and a click only commits while
the armed source still exists.  Drops and pointer motion are
unconstrained. -/
def SafeStep (s : EditorState) : Event → Prop
  | .arm i => hasId s.items i
  | .click i => hasId s.items i ∧ ArmedOk s
  | _ => True

/-- States reachable from `init` by guarded events. -/
inductive SafeReachable : EditorState → Prop
  | init : SafeReachable init
  | step {s : EditorState} {e : Event} :
      SafeReachable s → SafeStep s e → SafeReachable (EBWeb.step s e)

theorem hasId_append_left {l t : List Item} {i : Nat} (h : hasId l i) :
    hasId (l ++ t) i := by
  obtain ⟨a, ha, rfl⟩ := h
  exact ⟨a, List.mem_append_left _ ha, rfl⟩

theorem hasId_updateFirst_setCoords {l : List Item} {p : Item → Bool}
    {col row i : Nat} :
    hasId (updateFirst p (setCoords col row) l) i ↔ hasId l i := by
  have hmap : (updateFirst p (setCoords col row) l).map Item.id = l.map Item.id :=
    updateFirst_map (p := p) (f := setCoords col row) Item.id (fun a _ => rfl) l
  constructor
  · rintro ⟨a, ha, rfl⟩
    have : a.id ∈ l.map Item.id := hmap ▸ List.mem_map_of_mem Item.id ha
    obtain ⟨b, hb, hba⟩ := List.mem_map.mp this
    exact ⟨b, hb, hba⟩
  · rintro ⟨a, ha, rfl⟩
    have : a.id ∈ (updateFirst p (setCoords col row) l).map Item.id :=
      hmap.symm ▸ List.mem_map_of_mem Item.id ha
    obtain ⟨b, hb, hba⟩ := List.mem_map.mp this
    exact ⟨b, hb, hba⟩

theorem hasId_updateFirst_of_ne {l : List Item} {p : Item → Bool} {f : Item → Item}
    {i : Nat} {b : Item} (hff : findFirst p l = some b) (hi : hasId l i)
    (hne : i ≠ b.id) : hasId (updateFirst p f l) i := by
  obtain ⟨a, ha, rfl⟩ := hi
  exact ⟨a, mem_updateFirst_of_ne hff ha (fun h => hne (congrArg Item.id h)), rfl⟩

theorem hasId_removeFirst_of_ne {l : List Item} {p : Item → Bool}
    {i : Nat} {b : Item} (hff : findFirst p l = some b) (hi : hasId l i)
    (hne : i ≠ b.id) : hasId (removeFirst p l) i := by
  obtain ⟨a, ha, rfl⟩ := hi
  exact ⟨a, mem_removeFirst_of_ne hff ha (fun h => hne (congrArg Item.id h)), rfl⟩

theorem bne_true_ne {a b : Nat} (h : (a != b) = true) : a ≠ b := by
  simpa using h

theorem edgeValid_of_fields {s t : EditorState} (h : EdgeValid s)
    (hi : t.items = s.items) (hc : t.connections = s.connections) : EdgeValid t := by
  intro c hcmem
  rw [hc] at hcmem
  rw [hi]
  exact h c hcmem

theorem edgeValid_step {s : EditorState} {e : Event}
    (h : EdgeValid s) (hs : SafeStep s e) : EdgeValid (step s e) := by
  cases e with
  | palette ty col row =>
    show EdgeValid (paletteDrop s ty col row)
    cases hff : findFirst (cellMatch col row) s.items with
    | none =>
      intro c hc
      rw [paletteDrop_connections_none hff] at hc
      rw [paletteDrop_items_none hff]
      exact ⟨hasId_append_left (h c hc).1, hasId_append_left (h c hc).2⟩
    | some ex =>
      intro c hc
      rw [paletteDrop_connections_some hff] at hc
      obtain ⟨hcmem, hpred⟩ := List.mem_filter.mp hc
      simp only [Bool.and_eq_true] at hpred
      obtain ⟨hfrom, hto⟩ := hpred
      rw [paletteDrop_items_some hff]
      exact ⟨hasId_updateFirst_of_ne hff (h c hcmem).1 (bne_true_ne hfrom),
        hasId_updateFirst_of_ne hff (h c hcmem).2 (bne_true_ne hto)⟩
  | canvas m col row =>
    show EdgeValid (canvasDrop s m col row)
    cases hmi : findIdxP (idMatch m) s.items with
    | none => rw [canvasDrop_eq_of_absent hmi]; exact h
    | some mi =>
      cases hff : findFirst (cellMatch col row) s.items with
      | none =>
        rw [canvasDrop_move_free hmi hff]
        intro c hc
        exact ⟨hasId_updateFirst_setCoords.mpr (h c hc).1,
          hasId_updateFirst_setCoords.mpr (h c hc).2⟩
      | some ex =>
        by_cases hne : (ex.id != m) = true
        · rw [canvasDrop_evict hmi hff hne]
          intro c hc
          obtain ⟨hcmem, hpred⟩ := List.mem_filter.mp hc
          simp only [Bool.and_eq_true] at hpred
          obtain ⟨hfrom, hto⟩ := hpred
          exact ⟨hasId_updateFirst_setCoords.mpr
              (hasId_removeFirst_of_ne hff (h c hcmem).1 (bne_true_ne hfrom)),
            hasId_updateFirst_setCoords.mpr
              (hasId_removeFirst_of_ne hff (h c hcmem).2 (bne_true_ne hto))⟩
        · rw [canvasDrop_move_self hmi hff (by simpa using hne)]
          intro c hc
          exact ⟨hasId_updateFirst_setCoords.mpr (h c hc).1,
            hasId_updateFirst_setCoords.mpr (h c hc).2⟩
  | arm i => exact edgeValid_of_fields h rfl rfl
  | move x y =>
    exact edgeValid_of_fields h (mouseMove_items s x y) (mouseMove_connections s x y)
  | leave => exact edgeValid_of_fields h (mouseLeave_items s) (mouseLeave_connections s)
  | click i =>
    show EdgeValid (clickTarget s i)
    obtain ⟨htarget, harmed⟩ := hs
    cases hps : s.pendingSourceId with
    | none => rw [clickTarget_eq_of_idle hps]; exact h
    | some src =>
      by_cases h0 : src = 0
      · subst h0; rw [clickTarget_eq_of_zero hps]; exact h
      · by_cases hi : i = src
        · rw [clickTarget_cancel hps h0 hi]
          exact fun c hc => h c hc
        · rw [clickTarget_commit hps h0 hi]
          intro c hc
          rcases List.mem_append.mp hc with hc | hc
          · exact h c (List.mem_filter.mp hc).1
          · obtain rfl := List.mem_singleton.mp hc
            exact ⟨harmed src hps, htarget⟩

theorem edgeValid_init : EdgeValid init := by
  intro c hc
  cases hc

theorem edgeValid_safeReachable {s : EditorState} (h : SafeReachable s) :
    EdgeValid s := by
  induction h with
  | init => exact edgeValid_init
  | step _ hsafe ih => exact edgeValid_step ih hsafe

/-! ## Fan-out cap -/

/-- No two stored edges share a `fromId`. -/
abbrev FanOutCap (s : EditorState) : Prop :=
  s.connections.Pairwise (fun a b => a.fromId ≠ b.fromId)

theorem fanOutCap_step {s : EditorState} (h : FanOutCap s) (e : Event) :
    FanOutCap (step s e) := by
  cases e with
  | palette ty col row =>
    show FanOutCap (paletteDrop s ty col row)
    cases hff : findFirst (cellMatch col row) s.items with
    | none =>
      show (paletteDrop s ty col row).connections.Pairwise _
      rw [paletteDrop_connections_none hff]
      exact h
    | some ex =>
      show (paletteDrop s ty col row).connections.Pairwise _
      rw [paletteDrop_connections_some hff]
      exact h.sublist (List.filter_sublist _)
  | canvas m col row =>
    show FanOutCap (canvasDrop s m col row)
    cases hmi : findIdxP (idMatch m) s.items with
    | none => rw [canvasDrop_eq_of_absent hmi]; exact h
    | some mi =>
      cases hff : findFirst (cellMatch col row) s.items with
      | none => rw [canvasDrop_move_free hmi hff]; exact h
      | some ex =>
        by_cases hne : (ex.id != m) = true
        · rw [canvasDrop_evict hmi hff hne]
          exact h.sublist (List.filter_sublist _)
        · rw [canvasDrop_move_self hmi hff (by simpa using hne)]
          exact h
  | arm i => exact h
  | move x y =>
    show (mouseMove s x y).connections.Pairwise _
    rw [mouseMove_connections]
    exact h
  | leave =>
    show (mouseLeave s).connections.Pairwise _
    rw [mouseLeave_connections]
    exact h
  | click i =>
    show FanOutCap (clickTarget s i)
    cases hps : s.pendingSourceId with
    | none => rw [clickTarget_eq_of_idle hps]; exact h
    | some src =>
      by_cases h0 : src = 0
      · subst h0; rw [clickTarget_eq_of_zero hps]; exact h
      · by_cases hi : i = src
        · rw [clickTarget_cancel hps h0 hi]; exact h
        · rw [clickTarget_commit hps h0 hi]
          refine List.pairwise_append.mpr
            ⟨h.sublist (List.filter_sublist _), by simp, ?_⟩
          intro a ha b hbmem
          obtain rfl := List.mem_singleton.mp hbmem
          have := (List.mem_filter.mp ha).2
          exact bne_true_ne this

theorem fanOutCap_run :
    ∀ (es : List Event) {s : EditorState}, FanOutCap s → FanOutCap (run s es)
  | [], _, h => h
  | e :: es, _, h => fanOutCap_run es (fanOutCap_step h e)

theorem fanOutCap_init : FanOutCap init := List.Pairwise.nil

/-- From pairwise-distinct `fromId`s: at most one edge out of any node. -/
theorem countP_from_le_one {l : List Conn}
    (h : l.Pairwise (fun a b => a.fromId ≠ b.fromId)) (n : Nat) :
    l.countP (fun c => c.fromId == n) ≤ 1 := by
  induction l with
  | nil => simp
  | cons a t ih =>
    obtain ⟨ha, ht⟩ := List.pairwise_cons.mp h
    by_cases hp : (a.fromId == n) = true
    · rw [List.countP_cons_of_pos (p := fun c => c.fromId == n) t hp]
      have hzero : t.countP (fun c => c.fromId == n) = 0 := by
        refine List.countP_eq_zero.mpr ?_
        intro b hb hbp
        have hbn : b.fromId = n := by simpa using hbp
        have han : a.fromId = n := by simpa using hp
        exact ha b hb (han.trans hbn.symm)
      omega
    · rw [List.countP_cons_of_neg (p := fun c => c.fromId == n) t hp]
      exact ih ht

/-! ## Preview-point invariant -/

/-- Whenever a preview point is stored, the controller is armed and the
point is clamped into the surface square. -/
abbrev PreviewInv (s : EditorState) : Prop :=
  ∀ q : Int × Int, s.previewPoint = some q →
    s.pendingSourceId ≠ none ∧
      0 ≤ q.1 ∧ q.1 ≤ SURFACE_PX ∧ 0 ≤ q.2 ∧ q.2 ≤ SURFACE_PX

theorem previewInv_step {s : EditorState} (h : PreviewInv s) (e : Event) :
    PreviewInv (step s e) := by
  cases e with
  | palette ty col row =>
    intro q hq
    rw [show (step s (.palette ty col row)).previewPoint
        = s.previewPoint from paletteDrop_preview s ty col row] at hq
    rw [show (step s (.palette ty col row)).pendingSourceId
        = s.pendingSourceId from paletteDrop_pending s ty col row]
    exact h q hq
  | canvas m col row =>
    intro q hq
    rw [show (step s (.canvas m col row)).previewPoint
        = s.previewPoint from canvasDrop_preview s m col row] at hq
    rw [show (step s (.canvas m col row)).pendingSourceId
        = s.pendingSourceId from canvasDrop_pending s m col row]
    exact h q hq
  | arm i =>
    intro q hq
    exact absurd hq (by simp [step, armStart])
  | move x y =>
    cases hps : s.pendingSourceId with
    | none =>
      have heq : mouseMove s x y = s := by simp [mouseMove, hps]
      show PreviewInv (mouseMove s x y)
      rw [heq]
      exact h
    | some src =>
      by_cases h0 : src = 0
      · have heq : mouseMove s x y = s := by simp [mouseMove, hps, h0]
        show PreviewInv (mouseMove s x y)
        rw [heq]
        exact h
      · have heq : mouseMove s x y = { s with previewPoint := some (max 0 (min SURFACE_PX x), max 0 (min SURFACE_PX y)) } := by
          simp [mouseMove, hps, h0]
        show PreviewInv (mouseMove s x y)
        rw [heq]
        intro q hq
        have hq' : (max 0 (min SURFACE_PX x), max 0 (min SURFACE_PX y)) = q := by
          simpa using hq
        subst hq'
        refine ⟨by simp [hps], le_max_left _ _, ?_, le_max_left _ _, ?_⟩
        · exact max_le (by norm_num [SURFACE_PX]) (min_le_left _ _)
        · exact max_le (by norm_num [SURFACE_PX]) (min_le_left _ _)
  | leave =>
    rcases mouseLeave_eq s with heq | heq
    · show PreviewInv (mouseLeave s)
      rw [heq]
      exact h
    · show PreviewInv (mouseLeave s)
      rw [heq]
      intro q hq
      exact absurd hq (by simp)
  | click i =>
    show PreviewInv (clickTarget s i)
    cases hps : s.pendingSourceId with
    | none => rw [clickTarget_eq_of_idle hps]; exact h
    | some src =>
      by_cases h0 : src = 0
      · subst h0; rw [clickTarget_eq_of_zero hps]; exact h
      · by_cases hi : i = src
        · rw [clickTarget_cancel hps h0 hi]
          intro q hq
          exact absurd hq (by simp)
        · rw [clickTarget_commit hps h0 hi]
          intro q hq
          exact absurd hq (by simp)

theorem previewInv_run :
    ∀ (es : List Event) {s : EditorState}, PreviewInv s → PreviewInv (run s es)
  | [], _, h => h
  | e :: es, _, h => previewInv_run es (previewInv_step h e)

theorem previewInv_init : PreviewInv init := by
  intro q hq
  exact absurd hq (by simp [init])

/-! ## Sample states used to instantiate the theorems -/

/-- A state whose armed source id 1 no longer names a stored node (as
left behind by evicting the armed node). -/
def danglingArmed : EditorState :=
  { items := [⟨2, "Recv", 1, 0⟩], connections := [], nextId := 3,
    pendingSourceId := some 1, previewPoint := none }

/-- A small populated state with nodes 5, 7, 3 and one edge out of 5. -/
def armedSample : EditorState :=
  { items := [⟨5, "Start", 0, 0⟩, ⟨7, "Recv", 1, 0⟩, ⟨3, "Stop", 2, 0⟩],
    connections := [⟨5, 7⟩], nextId := 8,
    pendingSourceId := some 7, previewPoint := none }

/-- A one-node state as produced by a single palette drop. -/
def paletteSample : EditorState :=
  { items := [⟨1, "Start", 1, 1⟩], connections := [], nextId := 2,
    pendingSourceId := none, previewPoint := none }

/-- An event is one of the two placement operations. -/
def isPlacement : Event → Bool
  | .palette _ _ _ => true
  | .canvas _ _ _ => true
  | _ => false

/-! ## Claims -/

/-- C1, counterexample: edge validity fails on a reachable state.  Drop
`Start` at (0,0) (id 1) and `Recv` at (1,0) (id 2), arm node 1, evict
node 1 by dropping `Stop` onto (0,0), then click node 2: the commit in
`onActivityClickAsTarget` performs no existence re-check, so the edge
{from:1, to:2} is stored although no node with id 1 exists. -/
theorem edge_validity_cex :
    ¬ EdgeValid (run init [.palette "Start" 0 0, .palette "Recv" 1 0, .arm 1,
      .palette "Stop" 0 0, .click 2]) := by
  decide

/-- C1, amended: in every state reachable from the empty diagram by
palette drops, canvas drops, pointer moves/leaves, and arm-starts and
target clicks that reference existing nodes — with the armed source
still existing whenever a click commits — every edge's `from` and `to`
reference nodes present in the store. -/
theorem edge_validity (s : EditorState) (h : SafeReachable s) : EdgeValid s :=
  edgeValid_safeReachable h

theorem edge_validity_witness :
    EdgeValid (step (step init (.palette "Start" 1 1)) (.arm 1)) :=
  edge_validity _
    (SafeReachable.step (SafeReachable.step SafeReachable.init trivial)
      (show hasId (step init (Event.palette "Start" 1 1)).items 1 by decide))

/-- C2, counterexample: with the controller armed on the nonexistent id
1, clicking node 2 does not re-check existence and does not leave the
edge set unchanged — the edge {from:1, to:2} is created. -/
theorem dangling_commit_cex :
    danglingArmed.pendingSourceId = some 1 ∧
    (∀ it ∈ danglingArmed.items, it.id ≠ 1) ∧
    (2 : Nat) ≠ 1 ∧
    (clickTarget danglingArmed 2).connections ≠ danglingArmed.connections ∧
    (⟨1, 2⟩ : Conn) ∈ (clickTarget danglingArmed 2).connections := by
  decide

/-- C2, amended: a `clickTarget i` while armed with a (nonzero) source
`s` and `i ≠ s` always commits — edges out of `s` are replaced by
{from:s, to:i} and the controller disarms — even when no node with id
`s` exists; the code performs no existence re-check. -/
theorem dangling_commit (s : EditorState) (src i : Nat)
    (hps : s.pendingSourceId = some src) (h0 : src ≠ 0)
    (_habsent : ∀ it ∈ s.items, it.id ≠ src) (hi : i ≠ src) :
    clickTarget s i = { s with connections := s.connections.filter (fun c => c.fromId != src) ++ [⟨src, i⟩], pendingSourceId := none, previewPoint := none } ∧
    (⟨src, i⟩ : Conn) ∈ (clickTarget s i).connections := by
  refine ⟨clickTarget_commit hps h0 hi, ?_⟩
  rw [clickTarget_commit hps h0 hi]
  simp

theorem dangling_commit_witness :
    clickTarget danglingArmed 2 = { danglingArmed with connections := danglingArmed.connections.filter (fun c => c.fromId != 1) ++ [⟨1, 2⟩], pendingSourceId := none, previewPoint := none } ∧
    (⟨1, 2⟩ : Conn) ∈ (clickTarget danglingArmed 2).connections :=
  dangling_commit danglingArmed 1 2 rfl (by decide) (by decide) (by decide)

/-- C3: after any sequence of palette-drop and canvas-drop placements
from the empty diagram, no two distinct stored nodes share a grid cell. -/
theorem grid_exclusivity (es : List Event) (_hp : ∀ e ∈ es, isPlacement e = true) :
    ∀ a ∈ (run init es).items, ∀ b ∈ (run init es).items,
      a ≠ b → a.cell ≠ b.cell := by
  intro a ha b hb hne
  have hinv := storeInv_run es storeInv_init
  exact List.Pairwise.forall (fun _ _ h => Ne.symm h) hinv.2.2 ha hb hne

theorem grid_exclusivity_witness :
    (Item.cell ⟨1, "Start", 1, 1⟩) ≠ (Item.cell ⟨2, "Stop", 0, 0⟩) :=
  grid_exclusivity [.palette "Start" 1 1, .palette "Stop" 0 0] (by decide)
    ⟨1, "Start", 1, 1⟩ (by decide) ⟨2, "Stop", 0, 0⟩ (by decide) (by decide)

/-- C4: in every reachable state at most one edge leaves any node id
`n`, and the commit step replaces the edges out of the armed source `s`
with the single edge {from:s, to:t}. -/
theorem fanout_cap :
    (∀ (es : List Event) (n : Nat),
      (run init es).connections.countP (fun c => c.fromId == n) ≤ 1) ∧
    (∀ (s : EditorState) (src t : Nat),
      s.pendingSourceId = some src → src ≠ 0 → t ≠ src →
      clickTarget s t = { s with connections := s.connections.filter (fun c => c.fromId != src) ++ [⟨src, t⟩], pendingSourceId := none, previewPoint := none }) :=
  ⟨fun es n => countP_from_le_one (fanOutCap_run es fanOutCap_init) n,
   fun _ _ _ hps h0 ht => clickTarget_commit hps h0 ht⟩

theorem fanout_cap_witness :
    ((run init [.palette "Start" 0 0]).connections.countP
      (fun c => c.fromId == 1) ≤ 1) ∧
    clickTarget armedSample 3 = { armedSample with connections := armedSample.connections.filter (fun c => c.fromId != 7) ++ [⟨7, 3⟩], pendingSourceId := none, previewPoint := none } :=
  ⟨fanout_cap.1 [.palette "Start" 0 0] 1,
   fanout_cap.2 armedSample 7 3 rfl (by decide) (by decide)⟩

/-- C5: a palette drop at cell (c,r) creates a node with a fresh id
there; when the cell is occupied the occupant is replaced in place and
exactly its incident edges are removed; when the cell is free the node
is appended and the edge set is untouched. -/
theorem palette_placement (s : EditorState) (ty : String) (col row : Nat)
    (hinv : StoreInv s) :
    (∀ it ∈ s.items, it.id ≠ s.nextId) ∧
    (findFirst (cellMatch col row) s.items = none →
      (paletteDrop s ty col row).items
          = s.items ++ [{ id := s.nextId, type := ty, col := col, row := row }] ∧
      (paletteDrop s ty col row).connections = s.connections) ∧
    (∀ ex, findFirst (cellMatch col row) s.items = some ex →
      (∃ l₁ l₂, s.items = l₁ ++ ex :: l₂ ∧
        (paletteDrop s ty col row).items
          = l₁ ++ { id := s.nextId, type := ty, col := col, row := row } :: l₂) ∧
      (paletteDrop s ty col row).connections
        = s.connections.filter (fun c => c.fromId != ex.id && c.toId != ex.id)) := by
  refine ⟨fun it hit => Nat.ne_of_lt (hinv.1 it hit), ?_, ?_⟩
  · intro hff
    exact ⟨paletteDrop_items_none hff, paletteDrop_connections_none hff⟩
  · intro ex hff
    obtain ⟨l₁, l₂, hdecomp, -, -, hupd⟩ := findFirst_decomp hff
    refine ⟨⟨l₁, l₂, hdecomp, ?_⟩, paletteDrop_connections_some hff⟩
    rw [paletteDrop_items_some hff, hupd]

theorem palette_placement_witness :
    (∃ l₁ l₂, paletteSample.items = l₁ ++ ⟨1, "Start", 1, 1⟩ :: l₂ ∧
      (paletteDrop paletteSample "Stop" 1 1).items
        = l₁ ++ ⟨2, "Stop", 1, 1⟩ :: l₂) ∧
    (paletteDrop paletteSample "Stop" 1 1).connections
      = paletteSample.connections.filter (fun c => c.fromId != 1 && c.toId != 1) :=
  (palette_placement paletteSample "Stop" 1 1 (by decide)).2.2 ⟨1, "Start", 1, 1⟩ rfl

/-- C6: a canvas drop of id `m` at cell (c,r) is a no-op when no node
with id `m` exists; when a distinct occupant sits at (c,r), the occupant
is removed together with exactly its incident edges and `m` moves to
(c,r); otherwise `m` simply moves to (c,r) and the edge set is
untouched. -/
theorem canvas_move (s : EditorState) (m col row : Nat) :
    ((∀ it ∈ s.items, it.id ≠ m) → canvasDrop s m col row = s) ∧
    (hasId s.items m →
      (∀ ex, findFirst (cellMatch col row) s.items = some ex → ex.id ≠ m →
        canvasDrop s m col row
          = { s with
              items := updateFirst (idMatch m) (setCoords col row)
                (removeFirst (cellMatch col row) s.items),
              connections := s.connections.filter
                (fun c => c.fromId != ex.id && c.toId != ex.id) }) ∧
      ((findFirst (cellMatch col row) s.items = none ∨
          (∃ ex, findFirst (cellMatch col row) s.items = some ex ∧ ex.id = m)) →
        canvasDrop s m col row
          = { s with items := updateFirst (idMatch m) (setCoords col row) s.items })) := by
  constructor
  · intro habsent
    refine canvasDrop_eq_of_absent (findIdxP_eq_none.mpr ?_)
    intro a ha
    exact beq_eq_false_iff_ne.mpr (habsent a ha)
  · intro hm
    obtain ⟨a, ha, rfl⟩ := hm
    cases hmi : findIdxP (idMatch a.id) s.items with
    | none =>
      exact absurd (findIdxP_eq_none.mp hmi a ha) (by simp [idMatch])
    | some mi =>
      constructor
      · intro ex hff hexne
        exact canvasDrop_evict hmi hff (by simpa using hexne)
      · rintro (hff | ⟨ex, hff, hexid⟩)
        · exact canvasDrop_move_free hmi hff
        · exact canvasDrop_move_self hmi hff (by simp [hexid])

theorem canvas_move_witness :
    canvasDrop armedSample 99 0 0 = armedSample ∧
    canvasDrop armedSample 3 0 0
      = { armedSample with
          items := updateFirst (idMatch 3) (setCoords 0 0)
            (removeFirst (cellMatch 0 0) armedSample.items),
          connections := armedSample.connections.filter
            (fun c => c.fromId != 5 && c.toId != 5) } :=
  ⟨(canvas_move armedSample 99 0 0).1 (by decide),
   ((canvas_move armedSample 3 0 0).2 (by decide)).1 ⟨5, "Start", 0, 0⟩ rfl (by decide)⟩

/-- C7, counterexample: `onStartHandleClick` performs no existence
check: arming id 5 on the empty diagram changes the state (the
controller becomes armed on 5). -/
theorem arm_missing_cex :
    (∀ it ∈ init.items, it.id ≠ 5) ∧ armStart init 5 ≠ init := by
  decide

/-- C7, amended: `armStart n` always arms on `n` and clears the preview
point — also when no node with id `n` exists (no existence check is
performed); the node and edge stores are untouched. -/
theorem arm_missing (s : EditorState) (n : Nat)
    (_habsent : ∀ it ∈ s.items, it.id ≠ n) :
    armStart s n = { s with pendingSourceId := some n, previewPoint := none } ∧
    (armStart s n).items = s.items ∧
    (armStart s n).connections = s.connections :=
  ⟨rfl, rfl, rfl⟩

theorem arm_missing_witness :
    armStart init 5 = { init with pendingSourceId := some 5, previewPoint := none } ∧
    (armStart init 5).items = init.items ∧
    (armStart init 5).connections = init.connections :=
  arm_missing init 5 (by decide)

/-- C8: dropping an existing node onto its own current cell leaves the
node store, the edge store, and the connection state unchanged (the
whole state is equal to what it was). -/
theorem self_drop_idempotent (s : EditorState) (m : Item)
    (hinv : StoreInv s) (hm : m ∈ s.items) :
    canvasDrop s m.id m.col m.row = s := by
  obtain ⟨-, hids, hcells⟩ := hinv
  cases hmi : findIdxP (idMatch m.id) s.items with
  | none =>
    exact absurd (findIdxP_eq_none.mp hmi m hm) (by simp [idMatch])
  | some mi =>
    obtain ⟨ex, hff⟩ :=
      findFirst_isSome_of_mem (p := cellMatch m.col m.row) hm (by simp [cellMatch])
    obtain ⟨hexmem, hexp⟩ := findFirst_some_mem hff
    have hexcell : ex.cell = (m.col, m.row) := cellMatch_cell.mp hexp
    have hexm : ex = m := by
      by_contra hne
      exact List.Pairwise.forall (fun _ _ h => Ne.symm h) hcells hexmem hm hne hexcell
    have hff2 : findFirst (cellMatch m.col m.row) s.items = some m := hexm ▸ hff
    rw [canvasDrop_move_self hmi hff2 (by simp)]
    rw [updateFirst_setCoords_self hids
      (findFirst_isSome_of_findIdxP hmi) hm rfl rfl rfl]

theorem self_drop_idempotent_witness :
    canvasDrop armedSample 7 1 0 = armedSample :=
  self_drop_idempotent armedSample ⟨7, "Recv", 1, 0⟩ (by decide) (by decide)

/-- C9: with nodes 5, 7, 3 present, `armStart 5; armStart 7;
clickTarget 3` replaces the edges out of 7 with exactly {from:7, to:3},
adds no edge out of 5, and ends disarmed with no preview point. -/
theorem rearm_discards (s : EditorState)
    (_h5 : hasId s.items 5) (_h7 : hasId s.items 7) (_h3 : hasId s.items 3) :
    (clickTarget (armStart (armStart s 5) 7) 3).connections
        = s.connections.filter (fun c => c.fromId != 7) ++ [⟨7, 3⟩] ∧
    (∀ c ∈ (clickTarget (armStart (armStart s 5) 7) 3).connections,
        c.fromId = 5 → c ∈ s.connections) ∧
    (clickTarget (armStart (armStart s 5) 7) 3).pendingSourceId = none ∧
    (clickTarget (armStart (armStart s 5) 7) 3).previewPoint = none := by
  have hps : (armStart (armStart s 5) 7).pendingSourceId = some 7 := rfl
  have hcomm := clickTarget_commit (i := 3) hps (by decide) (by decide)
  refine ⟨by rw [hcomm]; rfl, ?_, by rw [hcomm], by rw [hcomm]⟩
  intro c hc hc5
  rw [hcomm] at hc
  rcases List.mem_append.mp hc with hc | hc
  · exact (List.mem_filter.mp hc).1
  · obtain rfl := List.mem_singleton.mp hc
    exact absurd hc5 (by decide)

theorem rearm_discards_witness :
    (clickTarget (armStart (armStart armedSample 5) 7) 3).connections
        = armedSample.connections.filter (fun c => c.fromId != 7) ++ [⟨7, 3⟩] ∧
    (∀ c ∈ (clickTarget (armStart (armStart armedSample 5) 7) 3).connections,
        c.fromId = 5 → c ∈ armedSample.connections) ∧
    (clickTarget (armStart (armStart armedSample 5) 7) 3).pendingSourceId = none ∧
    (clickTarget (armStart (armStart armedSample 5) 7) 3).previewPoint = none :=
  rearm_discards armedSample (by decide) (by decide) (by decide)

/-- C10: in every reachable state, a stored preview point implies the
controller is armed and both coordinates are clamped into
[0, SURFACE_PX]; and a pointer move while idle changes nothing. -/
theorem preview_point :
    (∀ (es : List Event) (q : Int × Int),
      (run init es).previewPoint = some q →
        (run init es).pendingSourceId ≠ none ∧
        0 ≤ q.1 ∧ q.1 ≤ SURFACE_PX ∧ 0 ≤ q.2 ∧ q.2 ≤ SURFACE_PX) ∧
    (∀ (s : EditorState) (x y : Int),
      s.pendingSourceId = none → mouseMove s x y = s) :=
  ⟨fun es q hq => previewInv_run es previewInv_init q hq,
   fun s x y hps => by simp [mouseMove, hps]⟩

theorem preview_point_witness :
    ((run init [.palette "Start" 1 1, .arm 1, .move 5000 (-3)]).pendingSourceId ≠ none ∧
      0 ≤ ((2000 : Int), (0 : Int)).1 ∧ ((2000 : Int), (0 : Int)).1 ≤ SURFACE_PX ∧
      0 ≤ ((2000 : Int), (0 : Int)).2 ∧ ((2000 : Int), (0 : Int)).2 ≤ SURFACE_PX) ∧
    mouseMove init 3 4 = init :=
  ⟨preview_point.1 [.palette "Start" 1 1, .arm 1, .move 5000 (-3)] (2000, 0) (by decide),
   preview_point.2 init 3 4 rfl⟩

end EBWeb
